import Mathlib

/-!
Verification development for the B2B dealer portal repository.

The repository's live subsystems present in source are embedded directly:
the database validation script (`validate-database.ts`) and the component
registry loader (component loader utility).  The import pipeline, batch
state machine, band assignment manager and pricing rule engine are declared
and documented by the repository but their implementation files are not in
the source tree; those parts are modelled from the specification, and each
such definition is marked `Modelled from the spec:` in its doc comment.

Keyed tables (products by product code, price bands by product and band
code, the component cache by name) are embedded as association lists with
an upsert that replaces in place, mirroring SQL upserts and JavaScript
object/Map assignment semantics.
-/

section AList

variable {κ : Type} {α : Type} [DecidableEq κ]

/-- Upsert into an association list: replace the binding in place when the
key is present, append it otherwise (the behaviour of a SQL upsert on a
unique key and of JavaScript object assignment). -/
def alUpsert (k : κ) (v : α) : List (κ × α) → List (κ × α)
  | [] => [(k, v)]
  | (k₀, v₀) :: t => if k₀ = k then (k, v) :: t else (k₀, v₀) :: alUpsert k v t

/-- Lookup in an association list (first binding wins). -/
def alLookup (k : κ) : List (κ × α) → Option α
  | [] => none
  | (k₀, v₀) :: t => if k₀ = k then some v₀ else alLookup k t

/-- Remove every binding of a key (JavaScript `delete` / `Map.delete`). -/
def alDelete (k : κ) : List (κ × α) → List (κ × α)
  | [] => []
  | (k₀, v₀) :: t => if k₀ = k then alDelete k t else (k₀, v₀) :: alDelete k t

/-- The keys of an association list, in order. -/
def alKeys : List (κ × α) → List κ
  | [] => []
  | (k₀, _) :: t => k₀ :: alKeys t

theorem alLookup_upsert_self (k : κ) (v : α) (l : List (κ × α)) :
    alLookup k (alUpsert k v l) = some v := by
  induction l with
  | nil => simp [alUpsert, alLookup]
  | cons h t ih =>
    obtain ⟨k₀, v₀⟩ := h
    by_cases hk : k₀ = k
    · simp [alUpsert, alLookup, hk]
    · simp [alUpsert, alLookup, hk, ih]

theorem alLookup_upsert_ne {k k₁ : κ} (hne : k₁ ≠ k) (v : α) (l : List (κ × α)) :
    alLookup k₁ (alUpsert k v l) = alLookup k₁ l := by
  induction l with
  | nil => simp [alUpsert, alLookup, Ne.symm hne]
  | cons h t ih =>
    obtain ⟨k₀, v₀⟩ := h
    by_cases hk : k₀ = k
    · subst hk
      simp [alUpsert, alLookup, Ne.symm hne]
    · by_cases hk₁ : k₀ = k₁
      · subst hk₁
        simp [alUpsert, alLookup, hk]
      · simp [alUpsert, alLookup, hk, hk₁, ih]

theorem alKeys_upsert_mem {k : κ} (v : α) {l : List (κ × α)} (h : k ∈ alKeys l) :
    alKeys (alUpsert k v l) = alKeys l := by
  induction l with
  | nil => simp [alKeys] at h
  | cons hd t ih =>
    obtain ⟨k₀, v₀⟩ := hd
    by_cases hk : k₀ = k
    · simp [alUpsert, alKeys, hk]
    · have hmem : k ∈ alKeys t := by
        rcases (by simpa [alKeys] using h : k = k₀ ∨ k ∈ alKeys t) with h₁ | h₁
        · exact absurd h₁.symm hk
        · exact h₁
      simp [alUpsert, alKeys, hk, ih hmem]

theorem alKeys_upsert_not_mem {k : κ} (v : α) {l : List (κ × α)} (h : k ∉ alKeys l) :
    alKeys (alUpsert k v l) = alKeys l ++ [k] := by
  induction l with
  | nil => simp [alUpsert, alKeys]
  | cons hd t ih =>
    obtain ⟨k₀, v₀⟩ := hd
    by_cases hk : k₀ = k
    · exact absurd (by simp [alKeys, hk]) h
    · have ht : k ∉ alKeys t := fun hmem => h (by simp [alKeys]; right; exact hmem)
      simp [alUpsert, alKeys, hk, ih ht]

theorem alKeys_upsert_nodup {k : κ} (v : α) {l : List (κ × α)}
    (h : (alKeys l).Nodup) : (alKeys (alUpsert k v l)).Nodup := by
  by_cases hmem : k ∈ alKeys l
  · rw [alKeys_upsert_mem v hmem]; exact h
  · rw [alKeys_upsert_not_mem v hmem]
    simp [List.nodup_append, h, hmem]

theorem alLookup_isSome_of_mem {k : κ} {l : List (κ × α)} (h : k ∈ alKeys l) :
    (alLookup k l).isSome := by
  induction l with
  | nil => simp [alKeys] at h
  | cons hd t ih =>
    obtain ⟨k₀, v₀⟩ := hd
    by_cases hk : k₀ = k
    · simp [alLookup, hk]
    · have hmem : k ∈ alKeys t := by
        rcases (by simpa [alKeys] using h : k = k₀ ∨ k ∈ alKeys t) with h₁ | h₁
        · exact absurd h₁.symm hk
        · exact h₁
      simp [alLookup, hk, ih hmem]

theorem alLookup_eq_none_of_not_mem {k : κ} {l : List (κ × α)} (h : k ∉ alKeys l) :
    alLookup k l = none := by
  induction l with
  | nil => simp [alLookup]
  | cons hd t ih =>
    obtain ⟨k₀, v₀⟩ := hd
    have hk : k₀ ≠ k := fun hk => h (by simp [alKeys, hk])
    have ht : k ∉ alKeys t := fun hmem => h (by simp [alKeys]; right; exact hmem)
    simp [alLookup, hk, ih ht]

theorem alExt {l₁ l₂ : List (κ × α)} (hkeys : alKeys l₁ = alKeys l₂)
    (hnd : (alKeys l₁).Nodup) (hlook : ∀ k, alLookup k l₁ = alLookup k l₂) :
    l₁ = l₂ := by
  induction l₁ generalizing l₂ with
  | nil =>
    cases l₂ with
    | nil => rfl
    | cons hd t => simp [alKeys] at hkeys
  | cons hd t ih =>
    obtain ⟨k₀, v₀⟩ := hd
    cases l₂ with
    | nil => simp [alKeys] at hkeys
    | cons hd₂ t₂ =>
      obtain ⟨k₂, v₂⟩ := hd₂
      simp only [alKeys, List.cons.injEq] at hkeys
      obtain ⟨hk, hkeys'⟩ := hkeys
      subst hk
      have hv : v₀ = v₂ := by simpa [alLookup] using hlook k₀
      subst hv
      simp only [alKeys, List.nodup_cons] at hnd
      have hnotmem : k₀ ∉ alKeys t := hnd.1
      refine congrArg _ (ih hkeys' hnd.2 ?_)
      intro k
      by_cases hk : k₀ = k
      · subst hk
        rw [alLookup_eq_none_of_not_mem hnotmem,
          alLookup_eq_none_of_not_mem (hkeys' ▸ hnotmem)]
      · simpa [alLookup, hk] using hlook k

theorem alLookup_delete_self (k : κ) (l : List (κ × α)) :
    alLookup k (alDelete k l) = none := by
  induction l with
  | nil => simp [alDelete, alLookup]
  | cons hd t ih =>
    obtain ⟨k₀, v₀⟩ := hd
    by_cases hk : k₀ = k
    · simp [alDelete, hk, ih]
    · simp [alDelete, alLookup, hk, ih]

theorem alLookup_delete_ne {k k₁ : κ} (hne : k₁ ≠ k) (l : List (κ × α)) :
    alLookup k₁ (alDelete k l) = alLookup k₁ l := by
  induction l with
  | nil => simp [alDelete]
  | cons hd t ih =>
    obtain ⟨k₀, v₀⟩ := hd
    by_cases hk : k₀ = k
    · subst hk
      simp [alDelete, alLookup, Ne.symm hne, ih]
    · by_cases hk₁ : k₀ = k₁
      · subst hk₁
        simp [alDelete, alLookup, hk]
      · simp [alDelete, alLookup, hk, hk₁, ih]

end AList

section ApplyRows

variable {κ : Type} {α : Type} {ρ : Type} [DecidableEq κ]

/-- Apply a batch of rows to an association list, each row upserting the
binding at its own key — the shape of a per-batch sequence of SQL upserts. -/
def alApply (key : ρ → κ) (val : ρ → α) (l : List (κ × α)) (rows : List ρ) :
    List (κ × α) :=
  rows.foldl (fun acc r => alUpsert (key r) (val r) acc) l

/-- The value written at a key by the last row of the batch touching that
key, if any (later rows win). -/
def alLast (key : ρ → κ) (val : ρ → α) : List ρ → κ → Option α
  | [], _ => none
  | r :: rs, k =>
    match alLast key val rs k with
    | some v => some v
    | none => if key r = k then some (val r) else none

theorem alApply_nil (key : ρ → κ) (val : ρ → α) (l : List (κ × α)) :
    alApply key val l [] = l := rfl

theorem alApply_cons (key : ρ → κ) (val : ρ → α) (l : List (κ × α)) (r : ρ)
    (rs : List ρ) :
    alApply key val l (r :: rs) = alApply key val (alUpsert (key r) (val r) l) rs := rfl

/-- Last-write-wins characterization of a batch of upserts. -/
theorem alLookup_apply (key : ρ → κ) (val : ρ → α) (l : List (κ × α))
    (rows : List ρ) (k : κ) :
    alLookup k (alApply key val l rows) =
      match alLast key val rows k with
      | some v => some v
      | none => alLookup k l := by
  induction rows generalizing l with
  | nil => simp [alApply, alLast]
  | cons r rs ih =>
    rw [alApply_cons, ih]
    by_cases hlast : ∃ v, alLast key val rs k = some v
    · obtain ⟨v, hv⟩ := hlast
      simp [alLast, hv]
    · have hnone : alLast key val rs k = none := by
        cases h : alLast key val rs k with
        | none => rfl
        | some v => exact absurd ⟨v, h⟩ hlast
      by_cases hk : key r = k
      · subst hk
        simp [alLast, hnone, alLookup_upsert_self]
      · simp [alLast, hnone, hk, alLookup_upsert_ne (Ne.symm hk)]

theorem alKeys_apply_of_mem (key : ρ → κ) (val : ρ → α) {l : List (κ × α)}
    {rows : List ρ} (h : ∀ r ∈ rows, key r ∈ alKeys l) :
    alKeys (alApply key val l rows) = alKeys l := by
  induction rows generalizing l with
  | nil => rfl
  | cons r rs ih =>
    rw [alApply_cons]
    have hk : key r ∈ alKeys l := h r (by simp)
    have hkeys := alKeys_upsert_mem (val r) hk
    rw [ih (fun r' hr' => hkeys ▸ h r' (by simp [hr']))]
    exact hkeys

theorem mem_alKeys_upsert_self (k : κ) (v : α) (l : List (κ × α)) :
    k ∈ alKeys (alUpsert k v l) := by
  by_cases hm : k ∈ alKeys l
  · rw [alKeys_upsert_mem v hm]; exact hm
  · rw [alKeys_upsert_not_mem v hm]; simp

theorem mem_alKeys_upsert_mono {k : κ} (k₁ : κ) (v : α) {l : List (κ × α)}
    (h : k ∈ alKeys l) : k ∈ alKeys (alUpsert k₁ v l) := by
  by_cases hm : k₁ ∈ alKeys l
  · rw [alKeys_upsert_mem v hm]; exact h
  · rw [alKeys_upsert_not_mem v hm]; simp [h]

theorem mem_alKeys_apply_mono (key : ρ → κ) (val : ρ → α) {k : κ}
    {l : List (κ × α)} (rows : List ρ) (h : k ∈ alKeys l) :
    k ∈ alKeys (alApply key val l rows) := by
  induction rows generalizing l with
  | nil => exact h
  | cons r rs ih =>
    rw [alApply_cons]
    exact ih (mem_alKeys_upsert_mono (key r) (val r) h)

theorem mem_alKeys_apply (key : ρ → κ) (val : ρ → α) (l : List (κ × α))
    {rows : List ρ} {r : ρ} (h : r ∈ rows) :
    key r ∈ alKeys (alApply key val l rows) := by
  induction rows generalizing l with
  | nil => simp at h
  | cons r₀ rs ih =>
    rw [alApply_cons]
    rcases List.mem_cons.mp h with h₁ | h₁
    · subst h₁
      exact mem_alKeys_apply_mono key val rs (mem_alKeys_upsert_self (key r) (val r) l)
    · exact ih _ h₁

theorem alKeys_apply_nodup (key : ρ → κ) (val : ρ → α) {l : List (κ × α)}
    (rows : List ρ) (h : (alKeys l).Nodup) :
    (alKeys (alApply key val l rows)).Nodup := by
  induction rows generalizing l with
  | nil => exact h
  | cons r rs ih =>
    rw [alApply_cons]
    exact ih (alKeys_upsert_nodup (val r) h)

/-- Replaying a batch of upserts over its own result is a no-op, provided
the table's keys are duplicate-free. -/
theorem alApply_idem (key : ρ → κ) (val : ρ → α) {l : List (κ × α)}
    (rows : List ρ) (h : (alKeys l).Nodup) :
    alApply key val (alApply key val l rows) rows = alApply key val l rows := by
  apply alExt
  · exact alKeys_apply_of_mem key val (fun r hr => mem_alKeys_apply key val l hr)
  · exact alKeys_apply_nodup key val rows (alKeys_apply_nodup key val rows h)
  · intro k
    rw [alLookup_apply, alLookup_apply]
    cases hlast : alLast key val rows k with
    | some v => simp [hlast]
    | none => simp [hlast, alLookup_apply, hlast]

end ApplyRows

/-! ## Domain data model

Enumerations and table shapes follow the schema summary and the enum lists
checked by `validate-database.ts` (`validateEnums`). -/

/-- Part type classification of a product (`PartType` enum). -/
inductive PartType : Type
  | GENUINE
  | AFTERMARKET
  | BRANDED
deriving DecidableEq, Repr

/-- The `PartType` enum value names as validated by `validateEnums` in
`validate-database.ts`. -/
def partTypeValues : List String := ["GENUINE", "AFTERMARKET", "BRANDED"]

/-- The `ImportStatus` enum value names as validated by `validateEnums` in
`validate-database.ts`. -/
def importStatusValues : List String :=
  ["PROCESSING", "SUCCEEDED", "FAILED", "SUCCEEDED_WITH_ERRORS"]

/-- Parse a raw part-type column value into the enum; unrecognized values
yield `none` (enum-membership validation failure). -/
def parsePartType : String → Option PartType
  | "GENUINE" => some PartType.GENUINE
  | "AFTERMARKET" => some PartType.AFTERMARKET
  | "BRANDED" => some PartType.BRANDED
  | _ => none

/-- The four valid price band codes. -/
def validBandCodes : List String := ["1", "2", "3", "4"]

/-- Import batch status (`ImportStatus` enum). -/
inductive ImportStatus : Type
  | PROCESSING
  | SUCCEEDED
  | FAILED
  | SUCCEEDED_WITH_ERRORS
deriving DecidableEq, Repr

/-- The database name of an import status value. -/
def importStatusName : ImportStatus → String
  | ImportStatus.PROCESSING => "PROCESSING"
  | ImportStatus.SUCCEEDED => "SUCCEEDED"
  | ImportStatus.FAILED => "FAILED"
  | ImportStatus.SUCCEEDED_WITH_ERRORS => "SUCCEEDED_WITH_ERRORS"

/-- A staged product price/stock import row.  Modelled from the spec:
the staging-row shape for genuine/aftermarket product imports, with the
fixed column set `productCode, description, partType, freeStock, price,
bandLevel` named in the external-interfaces section. -/
structure RawRow : Type where
  productCode : String
  description : String
  partType : String
  freeStock : Int
  price : Rat
  bandLevel : String
deriving DecidableEq, Repr

/-- Modelled from the spec: the Row Validator's declarative rule list for
product imports — required product code, part-type enum membership,
non-negative stock and price, and band-code plausibility.  All violations
on one row accumulate into one list rather than short-circuiting. -/
def rowErrors (r : RawRow) : List String :=
  (if r.productCode = "" then ["productCode is required"] else []) ++
  (if (parsePartType r.partType).isSome then [] else
    ["partType must be GENUINE, AFTERMARKET or BRANDED"]) ++
  (if r.freeStock < 0 then ["freeStock must be non-negative"] else []) ++
  (if r.price < 0 then ["price must be non-negative"] else []) ++
  (if r.bandLevel ∈ validBandCodes then [] else ["bandLevel must be 1 to 4"])

/-- Modelled from the spec: the Row Validator verdict for one staging row —
a validity flag plus the accumulated error list. -/
def validateRow (r : RawRow) : Bool × List String :=
  ((rowErrors r).isEmpty, rowErrors r)

/-- The valid rows of a staged batch, in order (invalid rows are excluded
from commit but still counted). -/
def validRowsOf (rows : List RawRow) : List RawRow :=
  rows.filter (fun r => (rowErrors r).isEmpty)

/-- Live catalog value for a product row (description, part type, active
flag; keyed externally by the unique product code). -/
structure ProductInfo : Type where
  description : String
  partType : PartType
  isActive : Bool
deriving DecidableEq, Repr

/-- The live catalog tables touched by product price/stock imports:
products keyed by product code, one stock quantity and one reference price
per product code, and tiered band prices keyed by product code and band
code (unique on product+band).  Modelled from the spec and the schema
summary; the reference price fields are collapsed to one rational. -/
structure Catalog : Type where
  products : List (String × ProductInfo)
  stock : List (String × Int)
  refPrices : List (String × Rat)
  bands : List ((String × String) × Rat)
deriving DecidableEq, Repr

/-- The empty live catalog. -/
def emptyCatalog : Catalog := ⟨[], [], [], []⟩

/-- Product value written by a committed row. -/
def rowProductVal (r : RawRow) : ProductInfo :=
  ⟨r.description, (parsePartType r.partType).getD PartType.GENUINE, true⟩

/-- Modelled from the spec: the Commit Engine merge policy for one valid
product row — upsert the Product by product code, replace the stock
quantity, replace the reference price, and upsert the declared price band
(unique on product+band). -/
def commitRow (cat : Catalog) (r : RawRow) : Catalog :=
  { products := alUpsert r.productCode (rowProductVal r) cat.products
    stock := alUpsert r.productCode r.freeStock cat.stock
    refPrices := alUpsert r.productCode r.price cat.refPrices
    bands := alUpsert (r.productCode, r.bandLevel) r.price cat.bands }

/-- Modelled from the spec: committing a batch of valid rows in order. -/
def commitRows (cat : Catalog) (rows : List RawRow) : Catalog :=
  rows.foldl commitRow cat

/-- An import batch's row counters and status. -/
structure Batch : Type where
  totalRows : Nat
  validRows : Nat
  invalidRows : Nat
  status : ImportStatus
deriving DecidableEq, Repr

/-- Modelled from the spec: the Batch State Machine's terminal status,
computed once as a pure function of the row counts and the commit
outcome — FAILED on zero valid rows or an aborted commit, SUCCEEDED when
every row was valid and committed, SUCCEEDED_WITH_ERRORS otherwise. -/
def finalStatus (v i : Nat) (commitSucceeded : Bool) : ImportStatus :=
  if commitSucceeded = false ∨ v = 0 then ImportStatus.FAILED
  else if i = 0 then ImportStatus.SUCCEEDED
  else ImportStatus.SUCCEEDED_WITH_ERRORS

/-- Events consumed by the Batch State Machine: the single terminal
transition carrying the final counters and the commit outcome. -/
inductive BatchEvent : Type
  | finalize (v i : Nat) (commitSucceeded : Bool)

/-- Modelled from the spec: the Batch State Machine step.  Only a batch in
`PROCESSING` transitions; the three terminal statuses accept no further
change, so counters are never revised after the terminal transition. -/
def batchStep (b : Batch) : BatchEvent → Batch
  | BatchEvent.finalize v i c =>
    if b.status = ImportStatus.PROCESSING then
      ⟨v + i, v, i, finalStatus v i c⟩
    else b

/-- Modelled from the spec: one whole import run — stage the rows in a
`PROCESSING` batch, validate every row, then commit the valid rows inside
one all-or-nothing transaction.  `txFails` is the environment's verdict on
the commit transaction: when it aborts, the live catalog is left exactly
as it was and the batch ends `FAILED`. -/
def runImport (cat : Catalog) (rows : List RawRow) (txFails : Bool) :
    Catalog × Batch :=
  let valid := validRowsOf rows
  let v := valid.length
  let i := rows.length - v
  let staged : Batch := ⟨rows.length, 0, 0, ImportStatus.PROCESSING⟩
  let b := batchStep staged (BatchEvent.finalize v i (!txFails))
  if txFails then (cat, b) else (commitRows cat valid, b)

/-- Catalog states reachable from an empty live catalog through import
runs. -/
inductive ReachableCatalog : Catalog → Prop
  | init : ReachableCatalog emptyCatalog
  | step (cat : Catalog) (rows : List RawRow) (txFails : Bool) :
      ReachableCatalog cat → ReachableCatalog (runImport cat rows txFails).1

/-- Well-formedness of the live catalog: every keyed table is free of
duplicate keys (the unique constraints of the schema). -/
def CatalogWF (cat : Catalog) : Prop :=
  (alKeys cat.products).Nodup ∧ (alKeys cat.stock).Nodup ∧
    (alKeys cat.refPrices).Nodup ∧ (alKeys cat.bands).Nodup

/-- Key selector for product-keyed tables. -/
def rowCode (r : RawRow) : String := r.productCode

/-- Key selector for the band-price table. -/
def rowBandKey (r : RawRow) : String × String := (r.productCode, r.bandLevel)

/-- Value selectors for the stock, reference-price and band tables. -/
def rowStockVal (r : RawRow) : Int := r.freeStock

/-- Reference-price value written by a committed row. -/
def rowRefVal (r : RawRow) : Rat := r.price

/-- Band-price value written by a committed row. -/
def rowBandVal (r : RawRow) : Rat := r.price

/-- Committing a batch acts on each catalog table as an independent batch
of keyed upserts. -/
theorem commitRows_eq (cat : Catalog) (rows : List RawRow) :
    commitRows cat rows =
      ⟨alApply rowCode rowProductVal cat.products rows,
        alApply rowCode rowStockVal cat.stock rows,
        alApply rowCode rowRefVal cat.refPrices rows,
        alApply rowBandKey rowBandVal cat.bands rows⟩ := by
  induction rows generalizing cat with
  | nil => rfl
  | cons r rs ih =>
    show commitRows (commitRow cat r) rs = _
    rw [ih]
    rfl

/-- Committing a batch preserves duplicate-free keys in every table. -/
theorem commitRows_wf {cat : Catalog} (rows : List RawRow) (h : CatalogWF cat) :
    CatalogWF (commitRows cat rows) := by
  obtain ⟨h₁, h₂, h₃, h₄⟩ := h
  rw [commitRows_eq]
  exact ⟨alKeys_apply_nodup _ _ rows h₁, alKeys_apply_nodup _ _ rows h₂,
    alKeys_apply_nodup _ _ rows h₃, alKeys_apply_nodup _ _ rows h₄⟩

/-- An import run preserves catalog well-formedness. -/
theorem runImport_wf {cat : Catalog} (rows : List RawRow) (txFails : Bool)
    (h : CatalogWF cat) : CatalogWF (runImport cat rows txFails).1 := by
  unfold runImport
  by_cases hf : txFails
  · simpa [hf]
  · simpa [hf] using commitRows_wf (validRowsOf rows) h

/-- Every reachable catalog is well-formed. -/
theorem reachable_catalog_wf {cat : Catalog} (h : ReachableCatalog cat) :
    CatalogWF cat := by
  induction h with
  | init => exact ⟨List.nodup_nil, List.nodup_nil, List.nodup_nil, List.nodup_nil⟩
  | step cat rows txFails _ ih => exact runImport_wf rows txFails ih

/-! ## Band Assignment Manager -/

/-- A dealer's price-band assignment for one part type. -/
structure BandAssignment : Type where
  partType : PartType
  bandCode : String
deriving DecidableEq, Repr

/-- A dealer account together with its band assignments. -/
structure Dealer : Type where
  id : Nat
  assignments : List BandAssignment
deriving DecidableEq, Repr

/-- Modelled from the spec: the Band Assignment Manager's input check —
exactly three entries, one per part type (pairwise distinct part types),
every band code among the four valid codes. -/
def validBandInput (xs : List (PartType × String)) : Bool :=
  xs.length == 3 && decide ((xs.map Prod.fst).Nodup) &&
    xs.all (fun x => validBandCodes.contains x.2)

/-- Build assignment rows from checked input pairs. -/
def mkAssignments (xs : List (PartType × String)) : List BandAssignment :=
  xs.map (fun x => ⟨x.1, x.2⟩)

/-- Modelled from the spec: dealer creation supplies exactly three
`(partType, bandCode)` pairs; anything else is rejected with no write. -/
def createDealer (db : List Dealer) (did : Nat) (xs : List (PartType × String)) :
    Except String (List Dealer) :=
  if validBandInput xs then Except.ok (db ++ [⟨did, mkAssignments xs⟩])
  else Except.error "band assignment input rejected"

/-- Modelled from the spec: `assignBands` atomically replaces all three
assignments of one dealer, or rejects with no write at all. -/
def assignBands (db : List Dealer) (did : Nat) (xs : List (PartType × String)) :
    Except String (List Dealer) :=
  if validBandInput xs then
    Except.ok (db.map (fun d => if d.id = did then ⟨d.id, mkAssignments xs⟩ else d))
  else Except.error "band assignment input rejected"

/-- Dealer databases reachable through the Band Assignment Manager: an
empty portal, dealer creation, and atomic assignment replacement.  Rejected
calls return an error and leave the database untouched, so they produce no
new state. -/
inductive ReachableDealers : List Dealer → Prop
  | init : ReachableDealers []
  | create (db : List Dealer) (did : Nat) (xs : List (PartType × String))
      (db' : List Dealer) : ReachableDealers db →
      createDealer db did xs = Except.ok db' → ReachableDealers db'
  | assign (db : List Dealer) (did : Nat) (xs : List (PartType × String))
      (db' : List Dealer) : ReachableDealers db →
      assignBands db did xs = Except.ok db' → ReachableDealers db'

/-- The band-assignment invariant for one dealer: exactly three rows with
pairwise distinct part types. -/
def goodDealer (d : Dealer) : Prop :=
  d.assignments.length = 3 ∧ (d.assignments.map BandAssignment.partType).Nodup

theorem validBandInput_good (xs : List (PartType × String))
    (h : validBandInput xs = true) (did : Nat) :
    goodDealer ⟨did, mkAssignments xs⟩ := by
  unfold validBandInput at h
  simp only [Bool.and_eq_true, beq_iff_eq, decide_eq_true_eq] at h
  obtain ⟨⟨hlen, hnd⟩, _⟩ := h
  constructor
  · simpa [mkAssignments] using hlen
  · have : (mkAssignments xs).map BandAssignment.partType = xs.map Prod.fst := by
      simp [mkAssignments]
    rw [this]
    exact hnd

/-! ## Pricing Rule Engine -/

/-- The dealer's band code for a part type, from the three fetched
assignments. -/
def assignFor (assigns : List BandAssignment) (pt : PartType) : Option String :=
  match assigns.find? (fun a => a.partType == pt) with
  | some a => some a.bandCode
  | none => none

/-- The outcome of price resolution for one product: a tiered band price
(tagged with the band code it came from), the reference-price fallback, or
an explicit unresolved marker — never a silent zero or a missing entry. -/
inductive PriceResult : Type
  | banded (bandCode : String) (price : Rat)
  | reference (price : Rat)
  | unresolved
deriving DecidableEq, Repr

/-- Modelled from the spec: resolve one product's price for a dealer —
the band price at the dealer's assigned band code for the product's part
type when that `ProductPriceBand` row exists, else the reference price
when present, else the explicit unresolved marker. -/
def resolvePrice (assigns : List BandAssignment) (cat : Catalog)
    (pid : String) : PriceResult :=
  let fromRef : PriceResult :=
    match alLookup pid cat.refPrices with
    | some rp => PriceResult.reference rp
    | none => PriceResult.unresolved
  match alLookup pid cat.products with
  | none => fromRef
  | some p =>
    match assignFor assigns p.partType with
    | none => fromRef
    | some bc =>
      match alLookup (pid, bc) cat.bands with
      | some price => PriceResult.banded bc price
      | none => fromRef

/-- Modelled from the spec: batched price resolution — one entry per
requested product id, resolved independently. -/
def resolvePrices (assigns : List BandAssignment) (cat : Catalog)
    (pids : List String) : List (String × PriceResult) :=
  pids.map (fun pid => (pid, resolvePrice assigns cat pid))

/-! ## Database validation report (`validate-database.ts`) -/

/-- Status of one validation test (`'PASS' | 'FAIL' | 'WARN'`). -/
inductive VStatus : Type
  | PASS
  | FAIL
  | WARN
deriving DecidableEq, Repr

/-- One recorded validation result (the `details` payload is display-only
in the script and is omitted here). -/
structure ValidationResult : Type where
  category : String
  test : String
  status : VStatus
  message : String
deriving DecidableEq, Repr

/-- `addResult` pushes one result onto the recorded list (console output
elided). -/
def addResult (results : List ValidationResult) (category test : String)
    (status : VStatus) (message : String) : List ValidationResult :=
  results ++ [⟨category, test, status, message⟩]

/-- Count of recorded results with a given status, as computed by the
summary in `generateReport` (`results.filter(r => r.status === s).length`). -/
def countStatus (s : VStatus) (results : List ValidationResult) : Nat :=
  (results.filter (fun r => r.status == s)).length

/-- The decision logic of `generateReport`: `false` when the summary has
any failed test, otherwise `true` (with or without warnings).  Console
reporting is elided. -/
def generateReport (results : List ValidationResult) : Bool :=
  let failed := countStatus VStatus.FAIL results
  let warnings := countStatus VStatus.WARN results
  if failed > 0 then false
  else if warnings > 0 then true
  else true

/-! ## Component registry loader (component loader utility source file)

The TypeScript `export` field of registry entries is named `exportField`
here because `export` is reserved in Lean; `string | string[]` becomes
`StrOrStrs`. -/

/-- A value that is either one export name or a list of them. -/
inductive StrOrStrs : Type
  | one (s : String)
  | many (l : List String)
deriving DecidableEq, Repr

/-- `Array.isArray(x) ? x : [x]` — normalize exports to a list. -/
def toExportList : StrOrStrs → List String
  | StrOrStrs.one s => [s]
  | StrOrStrs.many l => l

/-- A component registry entry (`path`, `export`; the optional metadata
fields the loader never reads — `category`, `aliases`, `deprecated`,
`replacement` — are omitted, and `description` is kept because the
override branch of the resolver writes it). -/
structure RegistryEntry : Type where
  path : String
  exportField : StrOrStrs
  description : Option String
deriving DecidableEq, Repr

/-- The component registry: categories of named entries, a name-alias map
and a runtime override map (absent optional maps are the empty list). -/
structure ComponentRegistry : Type where
  version : String
  components : List (String × List (String × RegistryEntry))
  aliases : List (String × String)
  overrides : List (String × RegistryEntry)
deriving DecidableEq, Repr

/-- A resolved component as returned by `resolveComponent`. -/
structure ResolvedComponent : Type where
  name : String
  category : String
  path : String
  exports : List String
  metadata : RegistryEntry
deriving DecidableEq, Repr

/-- The loader's mutable state: the registry (whose overrides are mutated
at runtime) and the per-name component cache. -/
structure LoaderState : Type where
  registry : ComponentRegistry
  cache : List (String × ResolvedComponent)
deriving DecidableEq, Repr

/-- `registry.aliases?.[componentName] || componentName` — alias
substitution, where a falsy (empty-string) alias target falls back to the
original name. -/
def actualNameOf (reg : ComponentRegistry) (name : String) : String :=
  match alLookup name reg.aliases with
  | some s => if s = "" then name else s
  | none => name

/-- The category scan of `resolveComponent`: the first category whose
component map contains the name wins. -/
def findInCategories :
    List (String × List (String × RegistryEntry)) → String →
      Option (String × RegistryEntry)
  | [], _ => none
  | (cat, comps) :: t, n =>
    match alLookup n comps with
    | some e => some (cat, e)
    | none => findInCategories t n

/-- `resolveComponent`: return the cached resolution when present;
otherwise substitute aliases, prefer a runtime override, then scan the
categories; cache any hit under the original queried name; return `none`
when nothing matches. -/
def resolveComponent (st : LoaderState) (name : String) :
    Option ResolvedComponent × LoaderState :=
  match alLookup name st.cache with
  | some r => (some r, st)
  | none =>
    let actualName := actualNameOf st.registry name
    match alLookup actualName st.registry.overrides with
    | some o =>
      let r : ResolvedComponent :=
        ⟨actualName, "override", o.path, toExportList o.exportField,
          ⟨o.path, o.exportField, some ("Override for " ++ actualName)⟩⟩
      (some r, ⟨st.registry, alUpsert name r st.cache⟩)
    | none =>
      match findInCategories st.registry.components actualName with
      | some (cat, e) =>
        let r : ResolvedComponent :=
          ⟨actualName, cat, e.path, toExportList e.exportField, e⟩
        (some r, ⟨st.registry, alUpsert name r st.cache⟩)
      | none => (none, st)

/-- `hasComponent`: a component exists when `resolveComponent` does not
return null. -/
def hasComponent (st : LoaderState) (name : String) : Bool :=
  (resolveComponent st name).1.isSome

/-- `overrideComponent`: install or replace a runtime override for a name
and clear that name's cache entry. -/
def overrideComponent (st : LoaderState) (name path : String)
    (exportNames : StrOrStrs) : LoaderState :=
  ⟨⟨st.registry.version, st.registry.components, st.registry.aliases,
      alUpsert name ⟨path, exportNames, none⟩ st.registry.overrides⟩,
    alDelete name st.cache⟩

/-- `clearOverride`: remove a name's override and its cache entry. -/
def clearOverride (st : LoaderState) (name : String) : LoaderState :=
  ⟨⟨st.registry.version, st.registry.components, st.registry.aliases,
      alDelete name st.registry.overrides⟩,
    alDelete name st.cache⟩

/-! ## Claim theorems -/

/-- Claim C1: in every reachable state of the dealer database, every
dealer account has exactly three band-assignment rows with pairwise
distinct part types; every operation that creates or updates assignments
preserves this, rejected inputs leaving no partial state. -/
theorem dealer_band_invariant {db : List Dealer} (h : ReachableDealers db) :
    ∀ d ∈ db, d.assignments.length = 3 ∧
      (d.assignments.map BandAssignment.partType).Nodup := by
  induction h with
  | init => intro d hd; simp at hd
  | create db did xs db' _ hok ih =>
    unfold createDealer at hok
    by_cases hv : validBandInput xs = true
    · rw [if_pos hv] at hok
      obtain rfl : db ++ [⟨did, mkAssignments xs⟩] = db' := by
        simpa using hok
      intro d hd
      rcases List.mem_append.mp hd with hd₁ | hd₁
      · exact ih d hd₁
      · obtain rfl : d = ⟨did, mkAssignments xs⟩ := by simpa using hd₁
        exact validBandInput_good xs hv did
    · rw [if_neg hv] at hok
      exact absurd hok (by simp)
  | assign db did xs db' _ hok ih =>
    unfold assignBands at hok
    by_cases hv : validBandInput xs = true
    · rw [if_pos hv] at hok
      obtain rfl : db.map (fun d => if d.id = did then
          (⟨d.id, mkAssignments xs⟩ : Dealer) else d) = db' := by
        simpa using hok
      intro d hd
      obtain ⟨d₀, hd₀, hmap⟩ := List.mem_map.mp hd
      by_cases hid : d₀.id = did
      · rw [if_pos hid] at hmap
        subst hmap
        exact validBandInput_good xs hv d₀.id
      · rw [if_neg hid] at hmap
        subst hmap
        exact ih d₀ hd₀
    · rw [if_neg hv] at hok
      exact absurd hok (by simp)

theorem dealer_band_invariant_witness :
    (⟨7, mkAssignments [(PartType.GENUINE, "2"), (PartType.AFTERMARKET, "1"),
        (PartType.BRANDED, "4")]⟩ : Dealer).assignments.length = 3 ∧
      ((⟨7, mkAssignments [(PartType.GENUINE, "2"), (PartType.AFTERMARKET, "1"),
        (PartType.BRANDED, "4")]⟩ : Dealer).assignments.map
          BandAssignment.partType).Nodup :=
  dealer_band_invariant
    (ReachableDealers.create [] 7
      [(PartType.GENUINE, "2"), (PartType.AFTERMARKET, "1"), (PartType.BRANDED, "4")]
      _ ReachableDealers.init (by rfl))
    _ (by simp)

/-- Claim C2: commit is atomic per batch — on a successful transaction the
whole batch of valid rows is applied (in particular, the last valid row
touching a product code has its stock and band price visible), and on a
failed transaction the live catalog is exactly the prior state and the
batch ends FAILED. -/
theorem import_commit_atomicity (cat : Catalog) (rows : List RawRow)
    (txFails : Bool) :
    (txFails = true → (runImport cat rows txFails).1 = cat ∧
      (runImport cat rows txFails).2.status = ImportStatus.FAILED) ∧
    (txFails = false →
      (runImport cat rows txFails).1 = commitRows cat (validRowsOf rows) ∧
      (∀ k v, alLast rowCode rowStockVal (validRowsOf rows) k = some v →
        alLookup k (runImport cat rows txFails).1.stock = some v) ∧
      (∀ k v, alLast rowBandKey rowBandVal (validRowsOf rows) k = some v →
        alLookup k (runImport cat rows txFails).1.bands = some v)) := by
  constructor
  · intro hf
    subst hf
    constructor
    · simp [runImport]
    · simp [runImport, batchStep, finalStatus]
  · intro hf
    subst hf
    refine ⟨by simp [runImport], ?_, ?_⟩
    · intro k v hlast
      have h1 : (runImport cat rows false).1 = commitRows cat (validRowsOf rows) := by
        simp [runImport]
      rw [h1, commitRows_eq, alLookup_apply, hlast]
    · intro k v hlast
      have h1 : (runImport cat rows false).1 = commitRows cat (validRowsOf rows) := by
        simp [runImport]
      rw [h1, commitRows_eq, alLookup_apply, hlast]

theorem import_commit_atomicity_witness :
    ((runImport emptyCatalog
        [⟨"P1", "part one", "GENUINE", 5, 10, "1"⟩] true).1 = emptyCatalog ∧
      (runImport emptyCatalog
        [⟨"P1", "part one", "GENUINE", 5, 10, "1"⟩] true).2.status =
          ImportStatus.FAILED) ∧
    alLookup "P1" (runImport emptyCatalog
        [⟨"P1", "part one", "GENUINE", 5, 10, "1"⟩] false).1.stock = some 5 :=
  ⟨(import_commit_atomicity emptyCatalog
      [⟨"P1", "part one", "GENUINE", 5, 10, "1"⟩] true).1 rfl,
    ((import_commit_atomicity emptyCatalog
      [⟨"P1", "part one", "GENUINE", 5, 10, "1"⟩] false).2 rfl).2.1 "P1" 5 (by rfl)⟩

/-- Claim C4: batch statuses range over the four `ImportStatus` enum
values checked by `validateEnums`; the terminal status is computed in one
transition from PROCESSING as a pure function of the valid count, invalid
count and commit outcome, with the spec's value table. -/
theorem batch_status_pure_function :
    (∀ s : ImportStatus, importStatusName s ∈ importStatusValues) ∧
    (∀ b : Batch, ∀ v i : Nat, ∀ c : Bool, b.status = ImportStatus.PROCESSING →
      (batchStep b (BatchEvent.finalize v i c)).status = finalStatus v i c) ∧
    (∀ v i : Nat, 0 < v → i = 0 →
      finalStatus v i true = ImportStatus.SUCCEEDED) ∧
    (∀ v i : Nat, 0 < v → 0 < i →
      finalStatus v i true = ImportStatus.SUCCEEDED_WITH_ERRORS) ∧
    (∀ v i : Nat, ∀ c : Bool, c = false ∨ v = 0 →
      finalStatus v i c = ImportStatus.FAILED) ∧
    (∀ cat rows txFails, (runImport cat rows txFails).2.status =
      finalStatus (validRowsOf rows).length
        (rows.length - (validRowsOf rows).length) (!txFails)) := by
  refine ⟨?_, ?_, ?_, ?_, ?_, ?_⟩
  · intro s; cases s <;> simp [importStatusName, importStatusValues]
  · intro b v i c hb
    simp [batchStep, hb]
  · intro v i hv hi
    simp [finalStatus, hi, Nat.pos_iff_ne_zero.mp hv]
  · intro v i hv hi
    simp [finalStatus, Nat.pos_iff_ne_zero.mp hv, Nat.pos_iff_ne_zero.mp hi]
  · intro v i c hc
    rcases hc with hc | hc <;> simp [finalStatus, hc]
  · intro cat rows txFails
    by_cases hf : txFails <;> simp [runImport, batchStep, hf]

theorem batch_status_pure_function_witness :
    finalStatus 1 0 true = ImportStatus.SUCCEEDED ∧
    finalStatus 1 2 true = ImportStatus.SUCCEEDED_WITH_ERRORS ∧
    finalStatus 0 3 true = ImportStatus.FAILED ∧
    (batchStep ⟨3, 0, 0, ImportStatus.PROCESSING⟩
      (BatchEvent.finalize 1 2 true)).status = finalStatus 1 2 true :=
  ⟨batch_status_pure_function.2.2.1 1 0 (by decide) rfl,
    batch_status_pure_function.2.2.2.1 1 2 (by decide) (by decide),
    batch_status_pure_function.2.2.2.2.1 0 3 true (Or.inr rfl),
    batch_status_pure_function.2.1 ⟨3, 0, 0, ImportStatus.PROCESSING⟩ 1 2 true rfl⟩

/-- Claim C5: an import batch ends with `totalRows = validRows +
invalidRows` (and equal to the staged row count), and a batch in any
terminal status is never changed again by the state machine. -/
theorem batch_counters_conserved (cat : Catalog) (rows : List RawRow)
    (txFails : Bool) :
    ((runImport cat rows txFails).2.totalRows =
      (runImport cat rows txFails).2.validRows +
        (runImport cat rows txFails).2.invalidRows) ∧
    ((runImport cat rows txFails).2.totalRows = rows.length) ∧
    (∀ b : Batch, ∀ e : BatchEvent, b.status ≠ ImportStatus.PROCESSING →
      batchStep b e = b) := by
  refine ⟨?_, ?_, ?_⟩
  · by_cases hf : txFails <;> simp [runImport, batchStep, hf]
  · by_cases hf : txFails <;>
      simpa [runImport, batchStep, hf] using
        Nat.add_sub_cancel' (List.length_filter_le _ rows)
  · intro b e hb
    cases e with
    | finalize v i c => simp [batchStep, hb]

theorem batch_counters_conserved_witness :
    ((runImport emptyCatalog [⟨"", "x", "GENUINE", 1, 1, "1"⟩,
        ⟨"P2", "y", "GENUINE", 1, 1, "2"⟩] false).2.totalRows =
      (runImport emptyCatalog [⟨"", "x", "GENUINE", 1, 1, "1"⟩,
        ⟨"P2", "y", "GENUINE", 1, 1, "2"⟩] false).2.validRows +
        (runImport emptyCatalog [⟨"", "x", "GENUINE", 1, 1, "1"⟩,
          ⟨"P2", "y", "GENUINE", 1, 1, "2"⟩] false).2.invalidRows) ∧
    batchStep ⟨2, 1, 1, ImportStatus.SUCCEEDED_WITH_ERRORS⟩
      (BatchEvent.finalize 9 9 true) = ⟨2, 1, 1, ImportStatus.SUCCEEDED_WITH_ERRORS⟩ :=
  ⟨(batch_counters_conserved emptyCatalog [⟨"", "x", "GENUINE", 1, 1, "1"⟩,
      ⟨"P2", "y", "GENUINE", 1, 1, "2"⟩] false).1,
    (batch_counters_conserved emptyCatalog [] false).2.2
      ⟨2, 1, 1, ImportStatus.SUCCEEDED_WITH_ERRORS⟩
      (BatchEvent.finalize 9 9 true) (by decide)⟩

/-- Claim C6: in every reachable live catalog, no two Product rows share a
product code — Commit Engine runs preserve product-code uniqueness. -/
theorem product_code_unique {cat : Catalog} (h : ReachableCatalog cat) :
    (alKeys cat.products).Nodup :=
  (reachable_catalog_wf h).1

theorem product_code_unique_witness :
    (alKeys (runImport emptyCatalog
      [⟨"P1", "a", "GENUINE", 1, 2, "1"⟩, ⟨"P2", "b", "BRANDED", 1, 3, "2"⟩,
        ⟨"P1", "c", "GENUINE", 4, 5, "2"⟩] false).1.products).Nodup :=
  product_code_unique
    (ReachableCatalog.step emptyCatalog
      [⟨"P1", "a", "GENUINE", 1, 2, "1"⟩, ⟨"P2", "b", "BRANDED", 1, 3, "2"⟩,
        ⟨"P1", "c", "GENUINE", 4, 5, "2"⟩] false ReachableCatalog.init)

/-- Claim C7: committing the same product price/stock file twice in
succession leaves the same Product, stock, reference-price and price-band
state as committing it once — the upsert merge policy is idempotent and
never duplicates rows. -/
theorem import_idempotent (cat : Catalog) (rows : List RawRow)
    (h : CatalogWF cat) :
    (runImport (runImport cat rows false).1 rows false).1 =
      (runImport cat rows false).1 := by
  obtain ⟨h₁, h₂, h₃, h₄⟩ := h
  have hrun : ∀ c : Catalog, (runImport c rows false).1 =
      commitRows c (validRowsOf rows) := by
    intro c; simp [runImport]
  rw [hrun, hrun, commitRows_eq cat, commitRows_eq]
  simp only [Catalog.mk.injEq]
  exact ⟨alApply_idem _ _ _ h₁, alApply_idem _ _ _ h₂,
    alApply_idem _ _ _ h₃, alApply_idem _ _ _ h₄⟩

theorem import_idempotent_witness :
    (runImport (runImport emptyCatalog
        [⟨"P1", "a", "GENUINE", 1, 2, "1"⟩, ⟨"P1", "b", "GENUINE", 6, 7, "1"⟩]
        false).1
      [⟨"P1", "a", "GENUINE", 1, 2, "1"⟩, ⟨"P1", "b", "GENUINE", 6, 7, "1"⟩]
      false).1 =
    (runImport emptyCatalog
      [⟨"P1", "a", "GENUINE", 1, 2, "1"⟩, ⟨"P1", "b", "GENUINE", 6, 7, "1"⟩]
      false).1 :=
  import_idempotent emptyCatalog
    [⟨"P1", "a", "GENUINE", 1, 2, "1"⟩, ⟨"P1", "b", "GENUINE", 6, 7, "1"⟩]
    ⟨List.nodup_nil, List.nodup_nil, List.nodup_nil, List.nodup_nil⟩

/-- Claim C3: batched price resolution returns one entry per requested
product, resolves the dealer-assigned band price when that band row
exists, falls back to the reference price when it does not, returns the
explicit unresolved marker when neither exists, and only ever returns a
band price taken from the dealer's assigned band for the product's part
type. -/
theorem resolve_prices_order (assigns : List BandAssignment) (cat : Catalog)
    (pids : List String) :
    ((resolvePrices assigns cat pids).map Prod.fst = pids) ∧
    (∀ pid ∈ pids,
      (pid, resolvePrice assigns cat pid) ∈ resolvePrices assigns cat pids) ∧
    (∀ pid : String, ∀ p : ProductInfo, ∀ bc : String, ∀ price : Rat,
      alLookup pid cat.products = some p →
      assignFor assigns p.partType = some bc →
      alLookup (pid, bc) cat.bands = some price →
      resolvePrice assigns cat pid = PriceResult.banded bc price) ∧
    (∀ pid : String, ∀ p : ProductInfo, ∀ bc : String, ∀ rp : Rat,
      alLookup pid cat.products = some p →
      assignFor assigns p.partType = some bc →
      alLookup (pid, bc) cat.bands = none →
      alLookup pid cat.refPrices = some rp →
      resolvePrice assigns cat pid = PriceResult.reference rp) ∧
    (∀ pid : String, ∀ p : ProductInfo, ∀ bc : String,
      alLookup pid cat.products = some p →
      assignFor assigns p.partType = some bc →
      alLookup (pid, bc) cat.bands = none →
      alLookup pid cat.refPrices = none →
      resolvePrice assigns cat pid = PriceResult.unresolved) ∧
    (∀ pid : String, ∀ bc : String, ∀ price : Rat,
      resolvePrice assigns cat pid = PriceResult.banded bc price →
      ∃ p : ProductInfo, alLookup pid cat.products = some p ∧
        assignFor assigns p.partType = some bc ∧
        alLookup (pid, bc) cat.bands = some price) := by
  refine ⟨?_, ?_, ?_, ?_, ?_, ?_⟩
  · simp [resolvePrices, Function.comp_def]
  · intro pid hpid
    simp only [resolvePrices, List.mem_map]
    exact ⟨pid, hpid, rfl⟩
  · intro pid p bc price h₁ h₂ h₃
    simp [resolvePrice, h₁, h₂, h₃]
  · intro pid p bc rp h₁ h₂ h₃ h₄
    simp [resolvePrice, h₁, h₂, h₃, h₄]
  · intro pid p bc h₁ h₂ h₃ h₄
    simp [resolvePrice, h₁, h₂, h₃, h₄]
  · intro pid bc price h
    unfold resolvePrice at h
    cases hp : alLookup pid cat.products with
    | none =>
      simp only [hp] at h
      cases hr : alLookup pid cat.refPrices with
      | none => simp [hr] at h
      | some rp => simp [hr] at h
    | some p =>
      simp only [hp] at h
      cases ha : assignFor assigns p.partType with
      | none =>
        simp only [ha] at h
        cases hr : alLookup pid cat.refPrices with
        | none => simp [hr] at h
        | some rp => simp [hr] at h
      | some bc₀ =>
        simp only [ha] at h
        cases hb : alLookup (pid, bc₀) cat.bands with
        | none =>
          simp only [hb] at h
          cases hr : alLookup pid cat.refPrices with
          | none => simp [hr] at h
          | some rp => simp [hr] at h
        | some price₀ =>
          simp only [hb, PriceResult.banded.injEq] at h
          obtain ⟨rfl, rfl⟩ := h
          exact ⟨p, rfl, ha, hb⟩

theorem resolve_prices_order_witness :
    resolvePrice
      [⟨PartType.GENUINE, "2"⟩, ⟨PartType.AFTERMARKET, "1"⟩, ⟨PartType.BRANDED, "1"⟩]
      ⟨[("ABC-123", ⟨"widget", PartType.GENUINE, true⟩)], [], [],
        [(("ABC-123", "1"), 40), (("ABC-123", "2"), 91/2)]⟩
      "ABC-123" = PriceResult.banded "2" (91/2) :=
  (resolve_prices_order
      [⟨PartType.GENUINE, "2"⟩, ⟨PartType.AFTERMARKET, "1"⟩, ⟨PartType.BRANDED, "1"⟩]
      ⟨[("ABC-123", ⟨"widget", PartType.GENUINE, true⟩)], [], [],
        [(("ABC-123", "1"), 40), (("ABC-123", "2"), 91/2)]⟩
      ["ABC-123"]).2.2.1 "ABC-123" ⟨"widget", PartType.GENUINE, true⟩ "2" (91/2)
    (by rfl) (by rfl) (by rfl)

/-- Claim C8: for a name that is not an alias key, installing a runtime
override and then resolving that name yields exactly the override (path,
export list, category `override`), regardless of what the cache held
before — the override invalidates the per-name cache entry and takes
precedence over every registry category entry. -/
theorem override_takes_precedence (st : LoaderState) (n p : String)
    (e : List String) (h : alLookup n st.registry.aliases = none) :
    (resolveComponent (overrideComponent st n p (StrOrStrs.many e)) n).1 =
      some ⟨n, "override", p, e,
        ⟨p, StrOrStrs.many e, some ("Override for " ++ n)⟩⟩ := by
  simp [resolveComponent, overrideComponent, actualNameOf, h,
    alLookup_delete_self, alLookup_upsert_self, toExportList]

theorem override_takes_precedence_witness :
    (resolveComponent
      (overrideComponent
        ⟨⟨"1.0.0", [("ui", [("Button", ⟨"./ui/button", StrOrStrs.one "Button", none⟩)])],
            [], []⟩,
          [("Button", ⟨"Button", "ui", "./ui/button", ["Button"],
            ⟨"./ui/button", StrOrStrs.one "Button", none⟩⟩)]⟩
        "Button" "./experimental/NewButton" (StrOrStrs.many ["NewButton"]))
      "Button").1 =
      some ⟨"Button", "override", "./experimental/NewButton", ["NewButton"],
        ⟨"./experimental/NewButton", StrOrStrs.many ["NewButton"],
          some ("Override for " ++ "Button")⟩⟩ :=
  override_takes_precedence
    ⟨⟨"1.0.0", [("ui", [("Button", ⟨"./ui/button", StrOrStrs.one "Button", none⟩)])],
        [], []⟩,
      [("Button", ⟨"Button", "ui", "./ui/button", ["Button"],
        ⟨"./ui/button", StrOrStrs.one "Button", none⟩⟩)]⟩
    "Button" "./experimental/NewButton" ["NewButton"] (by rfl)

/-- Claim C9 fails on the code as stated: a stale cache entry recorded
under an alias survives `clearOverride` of the target name, so
`resolveComponent` can return a non-null resolution for a name whose
aliased form is in neither the overrides map nor any category.  Trace:
alias `A -> Real`, override `Real`, resolve `A` (cached under `A`), clear
the `Real` override — then `Real` is nowhere in the registry, yet
resolving `A` still returns the stale override and `hasComponent` is
true. -/
theorem resolve_null_counterexample :
    (alLookup
        (actualNameOf (clearOverride ((resolveComponent
          (overrideComponent ⟨⟨"1", [], [("A", "Real")], []⟩, []⟩
            "Real" "./real" (StrOrStrs.one "RealImpl")) "A").2) "Real").registry "A")
        (clearOverride ((resolveComponent
          (overrideComponent ⟨⟨"1", [], [("A", "Real")], []⟩, []⟩
            "Real" "./real" (StrOrStrs.one "RealImpl")) "A").2) "Real").registry.overrides
      = none) ∧
    (findInCategories
        (clearOverride ((resolveComponent
          (overrideComponent ⟨⟨"1", [], [("A", "Real")], []⟩, []⟩
            "Real" "./real" (StrOrStrs.one "RealImpl")) "A").2) "Real").registry.components
        (actualNameOf (clearOverride ((resolveComponent
          (overrideComponent ⟨⟨"1", [], [("A", "Real")], []⟩, []⟩
            "Real" "./real" (StrOrStrs.one "RealImpl")) "A").2) "Real").registry "A")
      = none) ∧
    (resolveComponent
        (clearOverride ((resolveComponent
          (overrideComponent ⟨⟨"1", [], [("A", "Real")], []⟩, []⟩
            "Real" "./real" (StrOrStrs.one "RealImpl")) "A").2) "Real") "A").1.isSome
      = true ∧
    hasComponent
        (clearOverride ((resolveComponent
          (overrideComponent ⟨⟨"1", [], [("A", "Real")], []⟩, []⟩
            "Real" "./real" (StrOrStrs.one "RealImpl")) "A").2) "Real") "A"
      = true := by
  refine ⟨rfl, rfl, rfl, rfl⟩

/-- Claim C9 (amended): provided the per-name cache holds no entry for the
queried name, `resolveComponent` returns null exactly when the
alias-substituted name appears neither in the overrides map nor in any
component category, and `hasComponent` is false exactly then and true
otherwise (the resolver is a total function — it never throws). -/
theorem resolve_null_amended (st : LoaderState) (n : String)
    (hc : alLookup n st.cache = none) :
    (alLookup (actualNameOf st.registry n) st.registry.overrides = none →
      findInCategories st.registry.components (actualNameOf st.registry n) = none →
      (resolveComponent st n).1 = none ∧ hasComponent st n = false) ∧
    (∀ o : RegistryEntry,
      alLookup (actualNameOf st.registry n) st.registry.overrides = some o →
      hasComponent st n = true) ∧
    (∀ c : String, ∀ e : RegistryEntry,
      findInCategories st.registry.components (actualNameOf st.registry n) =
        some (c, e) →
      hasComponent st n = true) := by
  refine ⟨?_, ?_, ?_⟩
  · intro h₁ h₂
    constructor
    · simp [resolveComponent, hc, h₁, h₂]
    · simp [hasComponent, resolveComponent, hc, h₁, h₂]
  · intro o h₁
    simp [hasComponent, resolveComponent, hc, h₁]
  · intro c e h₁
    cases ho : alLookup (actualNameOf st.registry n) st.registry.overrides with
    | some o => simp [hasComponent, resolveComponent, hc, ho]
    | none => simp [hasComponent, resolveComponent, hc, ho, h₁]

theorem resolve_null_amended_witness :
    (resolveComponent
      ⟨⟨"1", [("ui", [("Button", ⟨"./ui/button", StrOrStrs.one "Button", none⟩)])],
        [], []⟩, []⟩ "Ghost").1 = none ∧
    hasComponent
      ⟨⟨"1", [("ui", [("Button", ⟨"./ui/button", StrOrStrs.one "Button", none⟩)])],
        [], []⟩, []⟩ "Ghost" = false :=
  (resolve_null_amended
    ⟨⟨"1", [("ui", [("Button", ⟨"./ui/button", StrOrStrs.one "Button", none⟩)])],
      [], []⟩, []⟩ "Ghost" (by rfl)).1 (by rfl) (by rfl)

/-- Claim C10: `generateReport` returns false exactly when some recorded
result has status FAIL (warnings alone never turn it false), and the
summary counts partition the total. -/
theorem report_fail_semantics (results : List ValidationResult) :
    (generateReport results = false ↔ ∃ r ∈ results, r.status = VStatus.FAIL) ∧
    (results.length = countStatus VStatus.PASS results +
      countStatus VStatus.FAIL results + countStatus VStatus.WARN results) ∧
    (∀ c t m : String,
      generateReport (addResult results c t VStatus.FAIL m) = false) ∧
    (∀ c t m : String,
      generateReport (addResult results c t VStatus.WARN m) =
        generateReport results) := by
  have hpos : ∀ s : VStatus, ∀ rs : List ValidationResult,
      0 < countStatus s rs ↔ ∃ r ∈ rs, r.status = s := by
    intro s rs
    induction rs with
    | nil => simp [countStatus]
    | cons r t ih =>
      by_cases hr : r.status = s
      · simp [countStatus, List.filter_cons, hr]
      · simp only [countStatus, List.filter_cons] at ih ⊢
        simp [hr, ih]
  refine ⟨?_, ?_, ?_, ?_⟩
  · by_cases hf : 0 < countStatus VStatus.FAIL results
    · simp [generateReport, hf, (hpos VStatus.FAIL results).mp hf]
    · have hnone : ¬∃ r ∈ results, r.status = VStatus.FAIL :=
        fun hex => hf ((hpos VStatus.FAIL results).mpr hex)
      by_cases hw : 0 < countStatus VStatus.WARN results <;>
        simp [generateReport, hf, hw, hnone]
  · induction results with
    | nil => simp [countStatus]
    | cons r t ih =>
      cases hr : r.status <;>
        simp [countStatus, List.filter_cons, hr] at ih ⊢ <;> omega
  · intro c t m
    have : 0 < countStatus VStatus.FAIL (addResult results c t VStatus.FAIL m) := by
      simp [countStatus, addResult, List.filter_append]
    simp [generateReport, this]
  · intro c t m
    have hsame : countStatus VStatus.FAIL (addResult results c t VStatus.WARN m) =
        countStatus VStatus.FAIL results := by
      simp [countStatus, addResult, List.filter_append]
    by_cases hf : 0 < countStatus VStatus.FAIL results
    · simp [generateReport, hsame, hf]
    · by_cases hw : 0 < countStatus VStatus.WARN results <;>
        simp [generateReport, hsame, hf, hw]

theorem report_fail_semantics_witness :
    generateReport (addResult [⟨"Data", "User Count", VStatus.WARN, "0 users"⟩]
      "Tables" "Table: Product" VStatus.FAIL "Missing or inaccessible") = false :=
  (report_fail_semantics [⟨"Data", "User Count", VStatus.WARN, "0 users"⟩]).2.2.1
    "Tables" "Table: Product" "Missing or inaccessible"
